import Mathlib

/-!
Shallow embedding of the bitcoinrs core (fork-aware chain store, p2p
connection request slots, wire-codec decoding, header-sync drivers),
translated from the Rust sources:

  * `src/lib/blockchain/blockchainmut.rs` — `BlockChainMut`, `BlockTree`
  * `src/lib/blockchain/blockchain.rs`    — `BlockChain`, `ActiveChain`
  * `src/lib/p2p/connection.rs`           — `Connection` request handlers
  * `src/lib/p2p/socket.rs`               — message frame decoding
  * `src/lib/p2p/sync_blockchain.rs`, `src/lib/process/ibd.rs`,
    `src/lib/process/sync_block_header.rs` — header-sync loop decisions

Blocks are represented by their double-SHA256 hash and the previous-block
hash (the only header fields the chain-store code reads).  The raw-pointer
node graphs of the sources are embedded as rose trees; a node is addressed
by the path of child indices from the root, which plays the role of the
node pointer (pointer equality = path equality, `prev` = dropping the last
index, dropping a subtree = re-rooting).
-/

/-- A stored block as the chain-store code observes it: `bitcoin_hash()`
and `header().prev_blockhash` (`StoredBlock` / generic `B` in the source). -/
structure Blk where
  hash : Nat
  prev : Nat
deriving DecidableEq

/-- Concrete linear test chain for witnesses: block `i` has hash `i + 1`
and links to hash `i` (block 0 is the start block). -/
def chainBlk (i : Nat) : Blk := { hash := i + 1, prev := i }

/-- Node graph of the chain tree: each node owns its block and the list of
`nexts` child nodes (`BlockTreeNode` / `Node` in the sources). -/
inductive Rose (α : Type) where
| node : α → List (Rose α) → Rose α

def Rose.data : Rose α → α
| .node a _ => a

def Rose.children : Rose α → List (Rose α)
| .node _ cs => cs

/-- Follow child edges along a path of child indices. A `some` result means
the path denotes a live node of the tree. -/
def nodeAt : Rose α → List Nat → Option (Rose α)
| t, [] => some t
| .node _ cs, i :: p => (cs[i]?).bind (fun c => nodeAt c p)

/-- Number of `nexts` children of the node at `p` (0 if `p` is dead). -/
def childCount (t : Rose α) (p : List Nat) : Nat :=
  match nodeAt t p with
  | some s => s.children.length
  | none => 0

/-- `append_block_to_node` / `Node::borrow_mut_then_append_block`: push a
fresh leaf holding `b` at the end of the `nexts` of the node at `p`.
The fresh node's path is `p ++ [childCount t p]`. -/
def appendAt : Rose α → List Nat → α → Option (Rose α)
| .node a cs, [], b => some (.node a (cs ++ [.node b []]))
| .node a cs, i :: p, b =>
  (cs[i]?).bind (fun c => (appendAt c p b).map (fun c' => .node a (cs.set i c')))

/-- Blocks on the root-to-`p` path, root first (the chain an iterator
walking `prev` edges from the node at `p` yields, reversed). -/
def pathBlocks : Rose α → List Nat → Option (List α)
| .node a _, [] => some [a]
| .node a cs, i :: p =>
  (cs[i]?).bind (fun c => (pathBlocks c p).map (fun l => a :: l))

/- `find_node_by_hash` of blockchainmut.rs: depth-first search checking the
node itself first, then its children in order. -/
mutual

def findPath (f : α → Nat) (h : Nat) : Rose α → Option (List Nat)
| .node a cs => if f a = h then some [] else findPathAux f h cs 0

def findPathAux (f : α → Nat) (h : Nat) : List (Rose α) → Nat → Option (List Nat)
| [], _ => none
| c :: cs, i =>
  match findPath f h c with
  | some p => some (i :: p)
  | none => findPathAux f h cs (i + 1)

end

/- `borrow_then_find_node`'s inner function of blockchain.rs: depth-first
search that recurses into the children first and checks the node itself
after the loop. -/
mutual

def dfsFind (f : α → Nat) (h : Nat) : Rose α → Option (List Nat)
| .node a cs =>
  match dfsFindAux f h cs 0 with
  | some p => some p
  | none => if f a = h then some [] else none

def dfsFindAux (f : α → Nat) (h : Nat) : List (Rose α) → Nat → Option (List Nat)
| [], _ => none
| c :: cs, i =>
  match dfsFind f h c with
  | some p => some (i :: p)
  | none => dfsFindAux f h cs (i + 1)

end

namespace Blockchainmut

/-- `const ENOUGH_CONFIRMATION: usize = 12;` (blockchainmut.rs line 8;
blocktree.rs line 7 repeats the same value). -/
def ENOUGH_CONFIRMATION : Nat := 12

/-- `const ENOUGH_CONFIRMATION: usize = 6;` of the older top-level
`src/lib/blockchain.rs` variant. -/
def TOP_LEVEL_ENOUGH_CONFIRMATION : Nat := 6

/-- `BlockTree` of blockchainmut.rs: `head` is the rose-tree root, `last`
is the path of the tip node (the raw `last` pointer of the source), `len`
is the cached node count. -/
structure BlockTree where
  root : Rose Blk
  last : List Nat
  len : Nat

/-- `BlockTree::with_start`. -/
def BlockTree.with_start (b : Blk) : BlockTree :=
  { root := .node b [], last := [], len := 1 }

/-- `BlockTree::try_add`.  `none` covers the `Err(InvalidBlock)` return (no
parent found) together with the source's unreachable panics and the
undefined behaviour a dangling `last` pointer would cause; all remaining
paths mirror the source:
  * locate the parent by `prev_blockhash` (self-first DFS from `head`);
  * append the new node; move `last` to it iff it is strictly deeper;
  * `len += 1`;
  * if the node `ENOUGH_CONFIRMATION` steps above the new node exists and
    its `prev` is the head (ancestor-path length 1), pop the head: the kept
    child becomes the new head (its sibling subtrees are dropped with it),
    `len -= 1`, and the old head's block is returned as the stabled block.
    The source never touches `last` here, so its path simply loses its
    leading index.  If the ancestor is the head itself (path length 0)
    nothing is popped; any longer path is the `panic!("Never comes
    here!!")` branch. -/
def BlockTree.try_add (t : BlockTree) (b : Blk) : Option (BlockTree × Option Blk) :=
  match findPath Blk.hash b.prev t.root with
  | none => none
  | some p =>
    match appendAt t.root p b with
    | none => none
    | some root1 =>
      let newPath := p ++ [childCount t.root p]
      let last1 := if t.last.length < newPath.length then newPath else t.last
      let len1 := t.len + 1
      if ENOUGH_CONFIRMATION ≤ newPath.length then
        let anc := newPath.take (newPath.length - ENOUGH_CONFIRMATION)
        if anc.length = 1 then
          match nodeAt root1 anc with
          | none => none
          | some newHead =>
            some ({ root := newHead, last := last1.tail, len := len1 - 1 }, some t.root.data)
        else if anc.length = 0 then
          some ({ root := root1, last := last1, len := len1 }, none)
        else none
      else
        some ({ root := root1, last := last1, len := len1 }, none)

/-- `BlockChainMut`: the stable vector plus the unstable tree (the
`UnstableBlockChain` wrapper adds nothing and is inlined). -/
structure BlockChainMut where
  stable_chain : List Blk
  tree : BlockTree

/-- `BlockChainMut::with_start` (and `new`, which is `with_start` at the
genesis block). -/
def BlockChainMut.with_start (b : Blk) : BlockChainMut :=
  { stable_chain := [], tree := BlockTree.with_start b }

/-- `BlockChainMut::try_add`: delegate to the tree; if a stabled block came
back, push it onto the stable vector. -/
def BlockChainMut.try_add (c : BlockChainMut) (b : Blk) : Option BlockChainMut :=
  match c.tree.try_add b with
  | none => none
  | some (t', stabled) =>
    match stabled with
    | none => some { stable_chain := c.stable_chain, tree := t' }
    | some s => some { stable_chain := c.stable_chain ++ [s], tree := t' }

/-- `BlockChainMut::len` (stable length plus the cached tree length). -/
def BlockChainMut.len (c : BlockChainMut) : Nat :=
  c.stable_chain.length + c.tree.len

/-- `BlockChainMut::iter`: stable blocks then the tree iterator, which
yields the blocks on the head-to-`last` path.  `none` models the undefined
behaviour of iterating from a dangling `last`. -/
def BlockChainMut.iter (c : BlockChainMut) : Option (List Blk) :=
  match pathBlocks c.tree.root c.tree.last with
  | none => none
  | some l => some (c.stable_chain ++ l)

/-- `BlockChainMut::latest_block`: last element of the iterator (the
source `unwrap`s it; `none` is the panic/UB case). -/
def BlockChainMut.latest_block (c : BlockChainMut) : Option Blk :=
  match c.iter with
  | none => none
  | some l => l.getLast?

/-- States reachable from `new`/`with_start` by successful `try_add`
calls (a failing `try_add` returns before mutating anything). -/
inductive Reachable : BlockChainMut → Prop
| start (b : Blk) : Reachable (BlockChainMut.with_start b)
| step (c : BlockChainMut) (b : Blk) (c' : BlockChainMut) :
    Reachable c → BlockChainMut.try_add c b = some c' → Reachable c'

/-- Structural invariant of the unstable tree: the `last` pointer denotes a
live node reachable from the head via child edges, and no node lies more
than `ENOUGH_CONFIRMATION` child edges below the head. -/
def Inv (t : BlockTree) : Prop :=
  (nodeAt t.root t.last).isSome = true ∧
  ∀ p, (nodeAt t.root p).isSome = true → p.length ≤ ENOUGH_CONFIRMATION

/-- Helper for concrete executions: fold `try_add` over a block list. -/
def add_all (c : BlockChainMut) : List Blk → Option BlockChainMut
| [] => some c
| b :: bs =>
  match c.try_add b with
  | none => none
  | some c' => add_all c' bs

end Blockchainmut

namespace Blockchain

/-- `BlockData` of blockchain.rs: the header (with its cached
`bitcoin_hash`) and the height assigned when the node was created. -/
structure BData where
  header : Blk
  height : Nat
deriving DecidableEq

/-- `BlockChain` of blockchain.rs: the node graph (rooted at the first
active node) and `active_nodes`, the root-to-tip list of node pointers,
embedded as node paths. -/
structure BlockChain where
  root : Rose BData
  active_nodes : List (List Nat)

/-- `BlockChain::with_start`. -/
def BlockChain.with_start (bd : BData) : BlockChain :=
  { root := .node bd [], active_nodes := [[]] }

/-- `borrow_then_find_node`: depth-first search from `active_nodes[0]`
(children first, then the node itself). -/
def find_node (c : BlockChain) (hash : Nat) : Option (List Nat) :=
  match c.active_nodes.head? with
  | none => none
  | some hp =>
    match nodeAt c.root hp with
    | none => none
    | some sub =>
      match dfsFind (fun bd => bd.header.hash) hash sub with
      | none => none
      | some rel => some (hp ++ rel)

/-- `ActiveChain::get_block`: index the active chain by
`height - start_height` after the lower bound check. -/
def get_block (c : BlockChain) (height : Nat) : Option BData :=
  match c.active_nodes.head? with
  | none => none
  | some fp =>
    match nodeAt c.root fp with
    | none => none
    | some fn =>
      if height < fn.data.height then none
      else
        match c.active_nodes[height - fn.data.height]? with
        | none => none
        | some q =>
          match nodeAt c.root q with
          | none => none
          | some n => some n.data

/-- `ActiveChain::contains`: look the height up and compare hashes. -/
def contains (c : BlockChain) (bd : BData) : Bool :=
  match get_block c bd.height with
  | none => false
  | some b => b.header.hash == bd.header.hash

/-- `borrow_then_find_last_common`'s inner function: climb `prev` edges
from the node at `p` until a node on the active chain is found.  `prev` of
a node is its path without the last index; the fuel `p.length + 1` is
exactly the number of ancestors, so it never runs out.  Reaching the root
without a hit is the source's `unreachable!()`. -/
def find_last_common_aux (c : BlockChain) : Nat → List Nat → Option (List Nat)
| 0, _ => none
| fuel + 1, p =>
  match nodeAt c.root p with
  | none => none
  | some n =>
    if contains c n.data then some p
    else if p.isEmpty then none
    else find_last_common_aux c fuel p.dropLast

def find_last_common (c : BlockChain) (p : List Nat) : Option (List Nat) :=
  find_last_common_aux c (p.length + 1) p

/-- `borrow_then_append_nodes`: starting from the new node, climb to the
ancestor whose `prev` is the current last active node, then push the
ancestors back-to-front onto `active_nodes`, ending with the new node
itself.  A node without `prev` is the source's
`panic!("node_ptr must have prev node")`. -/
def append_nodes_aux (act : List (List Nat)) : Nat → List Nat → Option (List (List Nat))
| 0, _ => none
| fuel + 1, p =>
  if p.isEmpty then none
  else
    let prev := p.dropLast
    if act.getLast? = some prev then some (act ++ [p])
    else
      match append_nodes_aux act fuel prev with
      | none => none
      | some act' => some (act' ++ [p])

def append_nodes (act : List (List Nat)) (p : List Nat) : Option (List (List Nat)) :=
  append_nodes_aux act (p.length + 1) p

/-- `BlockChain::try_add_inner` (the body of `try_add`):
  * find the parent via `prev_blockhash` (else `NotFoundPrevBlock`);
  * build a `BlockData` at parent height + 1 and append the node;
  * if its height strictly exceeds the active tail's height, find the last
    common node, truncate the active chain to
    `fork_height - start_height + 1` entries and append the new branch.
`none` is the `NotFoundPrevBlock` error together with lookups that cannot
fail on live states. -/
def try_add_inner (c : BlockChain) (h : Blk) : Option BlockChain :=
  match find_node c h.prev with
  | none => none
  | some prevPath =>
    match nodeAt c.root prevPath with
    | none => none
    | some prevNode =>
      match appendAt c.root prevPath { header := h, height := prevNode.data.height + 1 } with
      | none => none
      | some root1 =>
        match c.active_nodes.getLast? with
        | none => none
        | some tailPath =>
          match nodeAt root1 tailPath with
          | none => none
          | some tailNode =>
            if tailNode.data.height < prevNode.data.height + 1 then
              match find_last_common { root := root1, active_nodes := c.active_nodes }
                  (prevPath ++ [childCount c.root prevPath]) with
              | none => none
              | some forkPath =>
                match nodeAt root1 forkPath with
                | none => none
                | some forkNode =>
                  match c.active_nodes.head? with
                  | none => none
                  | some firstPath =>
                    match nodeAt root1 firstPath with
                    | none => none
                    | some firstNode =>
                      match append_nodes
                          (c.active_nodes.take (forkNode.data.height - firstNode.data.height + 1))
                          (prevPath ++ [childCount c.root prevPath]) with
                      | none => none
                      | some act' => some { root := root1, active_nodes := act' }
            else some { root := root1, active_nodes := c.active_nodes }

/-- `ActiveChain::locator_hashes`: hashes of the last 10 active blocks,
tip first (`self.iter().rev().take(10).map(bitcoin_hash)`).  The view the
`ActiveChain` borrow iterates is the root-to-tip block list. -/
def locator_hashes (chain : List BData) : List Nat :=
  ((chain.reverse).take 10).map (fun b => b.header.hash)

end Blockchain

namespace Connection

/-- Pending-request state of `Connection` (p2p/connection.rs): one slot
per request kind.  Reply recipients (`Recipient<_>`) are opaque ids. -/
structure Conn where
  waiting_blocks : Option (Nat × List Nat)
  waiting_headers : Option Nat
  subscribe_invs : Option Nat
  waiting_addrs : Option Nat
deriving DecidableEq

/-- Messages the handlers push to the peer socket. -/
inductive OutMsg where
| getdata (invs : List Nat)
| getheaders (locator_hashes : List Nat)
| getaddr
| pong (nonce : Nat)
deriving DecidableEq

/-- `Handler<GetBlocksRequest>`: a second request while one is pending is
dropped (early return before anything is sent). -/
def handle_get_blocks_request (c : Conn) (block_hashes : List Nat) (addr : Nat) :
    Conn × List OutMsg :=
  if c.waiting_blocks.isSome then (c, [])
  else ({ c with waiting_blocks := some (addr, block_hashes) }, [.getdata block_hashes])

/-- `Handler<GetHeadersRequest>`: same early-return policy. -/
def handle_get_headers_request (c : Conn) (locator_hashes : List Nat) (addr : Nat) :
    Conn × List OutMsg :=
  if c.waiting_headers.isSome then (c, [])
  else ({ c with waiting_headers := some addr }, [.getheaders locator_hashes])

/-- `Handler<GetAddrsRequest>`: the source logs "A new request is
dropped." when `waiting_addrs` is already occupied but does **not**
return, so it always sends `getaddr` and overwrites the slot. -/
def handle_get_addrs_request (c : Conn) (addr : Nat) : Conn × List OutMsg :=
  ({ c with waiting_addrs := some addr }, [.getaddr])

/-- `handle_ping_msg`: always answer `pong` with the same nonce. -/
def handle_ping_msg (c : Conn) (nonce : Nat) : Conn × List OutMsg :=
  (c, [.pong nonce])

end Connection

namespace Socket

/-- Error kinds of socket.rs decoding (`bitcoin::serialize::Error`
variants the code constructs, plus payload-decode failures propagated
with `?`). -/
inductive BtcError where
| unexpectedNetworkMagic (expected actual : Nat)
| invalidChecksum (expected actual : List Nat)
| unrecognizedNetworkCommand (cmd : String)
| decodeFailure
deriving DecidableEq

/-- `RawNetworkMessageHeader`. -/
structure RawNetworkMessageHeader where
  command_name : List Nat
  payload_size : Nat
  checksum : List Nat
deriving DecidableEq

/-- The typed messages of `NetworkMessage` that socket.rs dispatches to;
payload-carrying variants keep the raw payload bytes (parsing them is the
external bitcoin crate's `ConsensusDecodable`). -/
inductive NetworkMessage where
| version (payload : List Nat)
| verack
| addr (payload : List Nat)
| inv (payload : List Nat)
| getdata (payload : List Nat)
| notfound (payload : List Nat)
| getblocks (payload : List Nat)
| getheaders (payload : List Nat)
| mempool
| block (payload : List Nat)
| headers (payload : List Nat)
| getaddr
| ping (payload : List Nat)
| pong (payload : List Nat)
| tx (payload : List Nat)
| alert (payload : List Nat)
deriving DecidableEq

/-- Little-endian u32 from the first four bytes. -/
def bytes_to_u32_le (l : List Nat) : Nat :=
  l.getD 0 0 + 256 * l.getD 1 0 + 65536 * l.getD 2 0 + 16777216 * l.getD 3 0

/-- `CommandString::consensus_decode` of the external crate: the 12
NUL-padded ASCII bytes as a string. -/
def command_as_string (bytes : List Nat) : String :=
  String.mk ((bytes.takeWhile (fun b => b ≠ 0)).map Char.ofNat)

/-- `decode_msg_header`: on a 24-byte buffer, decode the magic and fail
with `UnexpectedNetworkMagic` on mismatch before reading the command
name, payload size and checksum fields. -/
def decode_msg_header (network_magic : Nat) (src : List Nat) :
    Except BtcError RawNetworkMessageHeader :=
  if bytes_to_u32_le (src.take 4) ≠ network_magic then
    .error (.unexpectedNetworkMagic network_magic (bytes_to_u32_le (src.take 4)))
  else
    .ok { command_name := (src.drop 4).take 12
        , payload_size := bytes_to_u32_le ((src.drop 16).take 4)
        , checksum := (src.drop 20).take 4 }

/-- The command strings `decode_and_check_msg_payload` recognizes, in
dispatch order. -/
def known_commands : List String :=
  ["version", "verack", "addr", "inv", "getdata", "notfound", "getblocks",
   "getheaders", "mempool", "block", "headers", "getaddr", "ping", "pong",
   "tx", "alert"]

/-- `decode_and_check_msg_payload`, parameterized by the external crate's
double-SHA256 checksum (`sha2_checksum`, first 4 hash bytes) and by
whether each command's `ConsensusDecodable` parse of the payload
succeeds.  Checks the checksum first, then dispatches on the command
string; an unknown command is `UnrecognizedNetworkCommand`. -/
def decode_and_check_msg_payload (sha2_checksum : List Nat → List Nat)
    (consensus_decode_ok : String → List Nat → Bool)
    (src : List Nat) (header : RawNetworkMessageHeader) :
    Except BtcError NetworkMessage :=
  if sha2_checksum src ≠ header.checksum then
    .error (.invalidChecksum (sha2_checksum src) header.checksum)
  else
    let cmd := command_as_string header.command_name
    if cmd = "version" then
      if consensus_decode_ok cmd src then .ok (.version src) else .error .decodeFailure
    else if cmd = "verack" then .ok .verack
    else if cmd = "addr" then
      if consensus_decode_ok cmd src then .ok (.addr src) else .error .decodeFailure
    else if cmd = "inv" then
      if consensus_decode_ok cmd src then .ok (.inv src) else .error .decodeFailure
    else if cmd = "getdata" then
      if consensus_decode_ok cmd src then .ok (.getdata src) else .error .decodeFailure
    else if cmd = "notfound" then
      if consensus_decode_ok cmd src then .ok (.notfound src) else .error .decodeFailure
    else if cmd = "getblocks" then
      if consensus_decode_ok cmd src then .ok (.getblocks src) else .error .decodeFailure
    else if cmd = "getheaders" then
      if consensus_decode_ok cmd src then .ok (.getheaders src) else .error .decodeFailure
    else if cmd = "mempool" then .ok .mempool
    else if cmd = "block" then
      if consensus_decode_ok cmd src then .ok (.block src) else .error .decodeFailure
    else if cmd = "headers" then
      if consensus_decode_ok cmd src then .ok (.headers src) else .error .decodeFailure
    else if cmd = "getaddr" then .ok .getaddr
    else if cmd = "ping" then
      if consensus_decode_ok cmd src then .ok (.ping src) else .error .decodeFailure
    else if cmd = "pong" then
      if consensus_decode_ok cmd src then .ok (.pong src) else .error .decodeFailure
    else if cmd = "tx" then
      if consensus_decode_ok cmd src then .ok (.tx src) else .error .decodeFailure
    else if cmd = "alert" then
      if consensus_decode_ok cmd src then .ok (.alert src) else .error .decodeFailure
    else .error (.unrecognizedNetworkCommand cmd)

end Socket

namespace Sync

/-- `const NUM_MAX_HEADERS_IN_MSG: usize = 2000;` (sync_blockchain.rs and
sync_block_header.rs; ibd.rs repeats it as `MAX_HEADERS_IN_MSG`). -/
def NUM_MAX_HEADERS_IN_MSG : Nat := 2000

/-- Outcome of `Handler<HeadersResponse> for SyncBlockChain`: notify
completion, issue another `getheaders`, or disconnect and notify the
error; each outcome carries the chain the actor holds at that point. -/
inductive SyncStepResult where
| complete (c : Blockchain.BlockChain)
| rerequest (c : Blockchain.BlockChain)
| err (c : Blockchain.BlockChain)

/-- The handler's `for` loop: feed the headers into
`BlockChain::try_add` one by one; the first failure stops the loop. -/
def apply_headers (c : Blockchain.BlockChain) : List Blk → Bool × Blockchain.BlockChain
| [] => (true, c)
| h :: hs =>
  match Blockchain.try_add_inner c h with
  | none => (false, c)
  | some c' => apply_headers c' hs

/-- `Handler<HeadersResponse> for SyncBlockChain` (sync_blockchain.rs):
`is_finish` is `msg.0.len() == NUM_MAX_HEADERS_IN_MSG`; a failed
`try_add` disconnects and notifies the error; otherwise the actor
notifies completion when `is_finish` holds and re-requests headers when
it does not. -/
def handle_headers_response (c : Blockchain.BlockChain) (headers : List Blk) :
    SyncStepResult :=
  let is_finish := headers.length = NUM_MAX_HEADERS_IN_MSG
  match apply_headers c headers with
  | (false, c') => .err c'
  | (true, c') => if is_finish then .complete c' else .rerequest c'

/-- Loop decisions of the `loop_fn`-based drivers. -/
inductive LoopStep where
| cont
| brk
deriving DecidableEq

/-- `download_headers` of process/ibd.rs: continue the getheaders loop
iff the reply held exactly `MAX_HEADERS_IN_MSG` headers. -/
def download_headers_decision (n_headers : Nat) : LoopStep :=
  if n_headers = NUM_MAX_HEADERS_IN_MSG then .cont else .brk

/-- `start_sync_block_header` of process/sync_block_header.rs:
`is_complete = headers.len() != NUM_MAX_HEADERS_IN_MSG`, and the loop
breaks iff `is_complete`. -/
def sync_block_header_is_complete (n_headers : Nat) : Bool :=
  n_headers ≠ NUM_MAX_HEADERS_IN_MSG

end Sync

/-! Generic lemmas about paths in the node graph. -/

theorem getElem?_lt_len {l : List α} {i : Nat} {c : α} (h : l[i]? = some c) : i < l.length := by
  by_contra hge
  rw [List.getElem?_eq_none (Nat.le_of_not_lt hge)] at h
  cases h

theorem nodeAt_append (p q : List Nat) :
    ∀ t : Rose α, nodeAt t (p ++ q) = (nodeAt t p).bind (fun s => nodeAt s q) := by
  induction p with
  | nil => intro t; simp [nodeAt]
  | cons i p ih =>
    intro t
    cases t with
    | node a cs =>
      simp only [List.cons_append, nodeAt]
      cases cs[i]? with
      | none => rfl
      | some c => exact ih c

theorem appendAt_isSome (p : List Nat) (b : α) :
    ∀ t : Rose α, (appendAt t p b).isSome = (nodeAt t p).isSome := by
  induction p with
  | nil => intro t; cases t; rfl
  | cons i p ih =>
    intro t
    cases t with
    | node a cs =>
      simp only [appendAt, nodeAt]
      cases cs[i]? with
      | none => rfl
      | some c =>
        simp only [Option.some_bind]
        rw [← ih c]
        cases appendAt c p b <;> rfl

theorem appendAt_preserves (p : List Nat) (b : α) :
    ∀ (t t' : Rose α), appendAt t p b = some t' →
    ∀ (q : List Nat) (s : Rose α), nodeAt t q = some s →
      ∃ s', nodeAt t' q = some s' ∧ s'.data = s.data := by
  induction p with
  | nil =>
    intro t t' happ q s hq
    cases t with
    | node a cs =>
      cases happ
      cases q with
      | nil => cases hq; exact ⟨_, rfl, rfl⟩
      | cons j q =>
        simp only [nodeAt] at hq ⊢
        rcases Option.bind_eq_some.mp hq with ⟨c, hcs, hrest⟩
        rw [List.getElem?_append_left (getElem?_lt_len hcs), hcs]
        exact ⟨s, by simpa using hrest, rfl⟩
  | cons i p ih =>
    intro t t' happ q s hq
    cases t with
    | node a cs =>
      simp only [appendAt] at happ
      rcases Option.bind_eq_some.mp happ with ⟨c, hcs, hmap⟩
      rcases Option.map_eq_some'.mp hmap with ⟨c', happc, rfl⟩
      cases q with
      | nil => cases hq; exact ⟨_, rfl, rfl⟩
      | cons j q =>
        simp only [nodeAt] at hq ⊢
        rcases Option.bind_eq_some.mp hq with ⟨d, hcsj, hrest⟩
        by_cases hji : i = j
        · subst hji
          rw [hcs] at hcsj
          cases hcsj
          rw [List.getElem?_set_eq_of_lt c' (getElem?_lt_len hcs)]
          simp only [Option.some_bind]
          exact ih c c' happc q s hrest
        · rw [List.getElem?_set_ne hji, hcsj]
          exact ⟨s, by simpa using hrest, rfl⟩

theorem appendAt_new (p : List Nat) (b : α) :
    ∀ (t t' : Rose α), appendAt t p b = some t' →
      nodeAt t' (p ++ [childCount t p]) = some (Rose.node b []) := by
  induction p with
  | nil =>
    intro t t' happ
    cases t with
    | node a cs =>
      cases happ
      show nodeAt (Rose.node a (cs ++ [Rose.node b []])) [childCount (Rose.node a cs) []] = _
      have hcnt : childCount (Rose.node a cs) [] = cs.length := by
        simp [childCount, nodeAt, Rose.children]
      rw [hcnt]
      simp [nodeAt, List.getElem?_concat_length]
  | cons i p ih =>
    intro t t' happ
    cases t with
    | node a cs =>
      simp only [appendAt] at happ
      rcases Option.bind_eq_some.mp happ with ⟨c, hcs, hmap⟩
      rcases Option.map_eq_some'.mp hmap with ⟨c', happc, rfl⟩
      have hcnt : childCount (Rose.node a cs) (i :: p) = childCount c p := by
        simp [childCount, nodeAt, hcs]
      rw [hcnt]
      simp only [List.cons_append, nodeAt]
      rw [List.getElem?_set_eq_of_lt c' (getElem?_lt_len hcs)]
      simp only [Option.some_bind]
      exact ih c c' happc

theorem appendAt_paths (p : List Nat) (b : α) :
    ∀ (t t' : Rose α), appendAt t p b = some t' →
    ∀ q, (nodeAt t' q).isSome = true →
      (nodeAt t q).isSome = true ∨ q = p ++ [childCount t p] := by
  induction p with
  | nil =>
    intro t t' happ q hq
    cases t with
    | node a cs =>
      cases happ
      cases q with
      | nil => left; rfl
      | cons j q =>
        simp only [nodeAt] at hq
        rcases Option.isSome_iff_exists.mp hq with ⟨s, hs⟩
        rcases Option.bind_eq_some.mp hs with ⟨c, hcs, hrest⟩
        rcases Nat.lt_trichotomy j cs.length with hlt | heq | hgt
        · left
          rw [List.getElem?_append_left hlt] at hcs
          simp only [nodeAt, hcs, Option.some_bind]
          rw [hrest]
          rfl
        · subst heq
          rw [List.getElem?_concat_length] at hcs
          cases hcs
          cases q with
          | nil =>
            right
            simp [childCount, nodeAt, Rose.children]
          | cons k q =>
            simp [nodeAt] at hrest
        · rw [List.getElem?_eq_none (by simpa using hgt)] at hcs
          cases hcs
  | cons i p ih =>
    intro t t' happ q hq
    cases t with
    | node a cs =>
      simp only [appendAt] at happ
      rcases Option.bind_eq_some.mp happ with ⟨c, hcs, hmap⟩
      rcases Option.map_eq_some'.mp hmap with ⟨c', happc, rfl⟩
      cases q with
      | nil => left; rfl
      | cons j q =>
        simp only [nodeAt] at hq
        rcases Option.isSome_iff_exists.mp hq with ⟨s, hs⟩
        rcases Option.bind_eq_some.mp hs with ⟨d, hcsj, hrest⟩
        by_cases hji : i = j
        · subst hji
          rw [List.getElem?_set_eq_of_lt c' (getElem?_lt_len hcs)] at hcsj
          cases hcsj
          rcases ih c c' happc q (by rw [hrest]; rfl) with h | h
          · left
            simp only [nodeAt, hcs, Option.some_bind]
            exact h
          · right
            have hcnt : childCount (Rose.node a cs) (i :: p) = childCount c p := by
              simp [childCount, nodeAt, hcs]
            rw [hcnt, h]
            rfl
        · left
          rw [List.getElem?_set_ne hji] at hcsj
          simp only [nodeAt, hcsj, Option.some_bind]
          rw [hrest]
          rfl

theorem pathBlocks_of_valid (p : List Nat) :
    ∀ t : Rose α, (nodeAt t p).isSome = true →
      ∃ l, pathBlocks t p = some l ∧ l ≠ [] := by
  induction p with
  | nil =>
    intro t _
    cases t
    exact ⟨_, rfl, by simp⟩
  | cons i p ih =>
    intro t h
    cases t with
    | node a cs =>
      simp only [nodeAt] at h
      rcases Option.isSome_iff_exists.mp h with ⟨s, hs⟩
      rcases Option.bind_eq_some.mp hs with ⟨c, hcs, hrest⟩
      obtain ⟨l, hl, _⟩ := ih c (by rw [hrest]; rfl)
      exact ⟨a :: l, by simp [pathBlocks, hcs, hl], by simp⟩

mutual

theorem findPath_valid (f : α → Nat) (h : Nat) :
    ∀ (t : Rose α) (p : List Nat), findPath f h t = some p → (nodeAt t p).isSome = true
| .node a cs, p, hp => by
  rw [findPath] at hp
  split at hp
  · cases hp; rfl
  · obtain ⟨j, c, q, rfl, hc, hv⟩ := findPathAux_valid f h cs 0 p hp
    simp only [nodeAt, Nat.zero_add, hc, Option.some_bind]
    exact hv

theorem findPathAux_valid (f : α → Nat) (h : Nat) :
    ∀ (cs : List (Rose α)) (i : Nat) (p : List Nat), findPathAux f h cs i = some p →
      ∃ j c q, p = (i + j) :: q ∧ cs[j]? = some c ∧ (nodeAt c q).isSome = true
| [], _, _, hp => by simp [findPathAux] at hp
| c :: cs, i, p, hp => by
  rw [findPathAux] at hp
  cases hfp : findPath f h c with
  | some q =>
    rw [hfp] at hp
    cases hp
    exact ⟨0, c, q, by simp, by simp, findPath_valid f h c q hfp⟩
  | none =>
    rw [hfp] at hp
    obtain ⟨j, c', q, rfl, hc, hv⟩ := findPathAux_valid f h cs (i + 1) p hp
    refine ⟨j + 1, c', q, ?_, by simpa using hc, hv⟩
    have : i + 1 + j = i + (j + 1) := by omega
    rw [this]

end

namespace Blockchainmut

theorem list_tail_eq_drop_one (l : List α) : l.tail = l.drop 1 := by
  cases l <;> rfl

theorem try_add_inv (t t' : BlockTree) (b : Blk) (s : Option Blk)
    (hInv : Inv t) (hadd : t.try_add b = some (t', s)) : Inv t' := by
  obtain ⟨hlast, hbound⟩ := hInv
  have hlast_len : t.last.length ≤ ENOUGH_CONFIRMATION := hbound _ hlast
  simp only [BlockTree.try_add] at hadd
  split at hadd
  · cases hadd
  next p hfind =>
  split at hadd
  · cases hadd
  next root1 happ =>
  have hpv : (nodeAt t.root p).isSome = true := findPath_valid _ _ _ _ hfind
  have hplen : p.length ≤ ENOUGH_CONFIRMATION := hbound p hpv
  have hnew : nodeAt root1 (p ++ [childCount t.root p]) = some (Rose.node b []) :=
    appendAt_new p b t.root root1 happ
  have hb1 : ∀ q, (nodeAt root1 q).isSome = true →
      q.length ≤ ENOUGH_CONFIRMATION ∨ q = p ++ [childCount t.root p] := by
    intro q hq
    rcases appendAt_paths p b t.root root1 happ q hq with h | h
    · exact Or.inl (hbound q h)
    · exact Or.inr h
  have hpres : ∀ q, (nodeAt t.root q).isSome = true → (nodeAt root1 q).isSome = true := by
    intro q hq
    rcases Option.isSome_iff_exists.mp hq with ⟨x, hx⟩
    obtain ⟨x', hx', _⟩ := appendAt_preserves p b t.root root1 happ q x hx
    rw [hx']
    rfl
  have hnonstab : (p ++ [childCount t.root p]).length ≤ ENOUGH_CONFIRMATION →
      Inv { root := root1,
            last := if t.last.length < (p ++ [childCount t.root p]).length
                    then p ++ [childCount t.root p] else t.last,
            len := t.len + 1 } := by
    intro hle
    constructor
    · by_cases hlt : t.last.length < (p ++ [childCount t.root p]).length
      · rw [if_pos hlt, hnew]
        rfl
      · rw [if_neg hlt]
        exact hpres _ hlast
    · intro q hq
      rcases hb1 q hq with h | h
      · exact h
      · rw [h]
        exact hle
  split at hadd
  case isTrue h12 =>
    split at hadd
    case isTrue hanc1 =>
      have hp12 : p.length = ENOUGH_CONFIRMATION := by
        rw [List.length_take] at hanc1
        simp only [List.length_append, List.length_cons, List.length_nil] at hanc1 h12
        omega
      have hlen13 : (p ++ [childCount t.root p]).length = ENOUGH_CONFIRMATION + 1 := by
        simp [hp12]
      have htake1 : (p ++ [childCount t.root p]).length - ENOUGH_CONFIRMATION = 1 := by
        omega
      rw [htake1] at hadd
      have hlt : t.last.length < (p ++ [childCount t.root p]).length := by omega
      rw [if_pos hlt] at hadd
      split at hadd
      · cases hadd
      next newHead hnh =>
      cases hadd
      have hsplit : (p ++ [childCount t.root p]).take 1 ++ (p ++ [childCount t.root p]).drop 1
          = p ++ [childCount t.root p] := List.take_append_drop 1 _
      have hrest : nodeAt newHead ((p ++ [childCount t.root p]).drop 1) = some (Rose.node b []) := by
        have := nodeAt_append ((p ++ [childCount t.root p]).take 1)
          ((p ++ [childCount t.root p]).drop 1) root1
        rw [hsplit, hnew, hnh] at this
        exact this.symm
      have htail : ((p ++ [childCount t.root p]).take 1).length = 1 := by
        rw [List.length_take]
        omega
      constructor
      · rw [list_tail_eq_drop_one, hrest]
        rfl
      · intro q hq
        have hq1 : (nodeAt root1 ((p ++ [childCount t.root p]).take 1 ++ q)).isSome = true := by
          rw [nodeAt_append, hnh]
          exact hq
        rcases hb1 _ hq1 with h | h
        · rw [List.length_append, htail] at h
          omega
        · have := congrArg List.length h
          rw [List.length_append, htail, hlen13] at this
          omega
    case isFalse hanc1 =>
      split at hadd
      case isTrue hanc0 =>
        cases hadd
        apply hnonstab
        rw [List.length_take] at hanc0
        simp only [List.length_append, List.length_cons, List.length_nil] at hanc0 h12 ⊢
        omega
      case isFalse hancx =>
        cases hadd
  case isFalse h12 =>
    cases hadd
    apply hnonstab
    simp only [List.length_append, List.length_cons, List.length_nil] at h12 ⊢
    omega

theorem try_add_bc_inv (c c' : BlockChainMut) (b : Blk)
    (hInv : Inv c.tree) (hadd : c.try_add b = some c') : Inv c'.tree := by
  simp only [BlockChainMut.try_add] at hadd
  split at hadd
  · cases hadd
  next t' stabled heq =>
    split at hadd <;> (cases hadd; exact try_add_inv _ _ _ _ hInv heq)

theorem reachable_inv (c : BlockChainMut) (h : Reachable c) : Inv c.tree := by
  induction h with
  | start b =>
    constructor
    · rfl
    · intro p hp
      cases p with
      | nil => exact Nat.zero_le _
      | cons i q =>
        simp [BlockChainMut.with_start, BlockTree.with_start, nodeAt] at hp
  | step c b c' _ hadd ih => exact try_add_bc_inv c c' b ih hadd

end Blockchainmut

theorem pathBlocks_length (p : List Nat) :
    ∀ (t : Rose α) (l : List α), pathBlocks t p = some l → l.length = p.length + 1 := by
  induction p with
  | nil =>
    intro t l h
    cases t
    cases h
    rfl
  | cons i p ih =>
    intro t l h
    cases t with
    | node a cs =>
      simp only [pathBlocks] at h
      rcases Option.bind_eq_some.mp h with ⟨c, _, hm⟩
      rcases Option.map_eq_some'.mp hm with ⟨l', hl', rfl⟩
      simp [ih c l' hl']

namespace Blockchainmut

/-- Claim C4 (amended): re-adding a block whose parent is present and
whose depth does not exceed the tip's succeeds but is NOT a no-op: a
fresh node is appended (the cached length grows by one) while the tip
stays unchanged and nothing is stabled.  A duplicate of an existing
block always satisfies these depth side conditions on live states. -/
theorem try_add_duplicate_appends_node (t : BlockTree) (b : Blk) (p : List Nat)
    (hfind : findPath Blk.hash b.prev t.root = some p)
    (hdepth : p.length + 1 ≤ t.last.length)
    (hlast : t.last.length ≤ ENOUGH_CONFIRMATION) :
    ∃ t', t.try_add b = some (t', none) ∧ t'.len = t.len + 1 ∧ t'.last = t.last := by
  have hpv := findPath_valid _ _ _ _ hfind
  have happs : (appendAt t.root p b).isSome = true := by
    rw [appendAt_isSome]
    exact hpv
  rcases Option.isSome_iff_exists.mp happs with ⟨root1, happ⟩
  refine ⟨{ root := root1, last := t.last, len := t.len + 1 }, ?_, rfl, rfl⟩
  simp only [BlockTree.try_add, hfind, happ]
  have hlen : (p ++ [childCount t.root p]).length = p.length + 1 := by simp
  have hnlt : ¬ (t.last.length < (p ++ [childCount t.root p]).length) := by
    rw [hlen]
    omega
  rw [if_neg hnlt]
  by_cases h12 : ENOUGH_CONFIRMATION ≤ (p ++ [childCount t.root p]).length
  · rw [if_pos h12]
    rw [hlen] at h12
    have h0 : ((p ++ [childCount t.root p]).take
        ((p ++ [childCount t.root p]).length - ENOUGH_CONFIRMATION)).length = 0 := by
      rw [List.length_take, hlen]
      omega
    rw [if_neg (by rw [h0]; omega), if_pos h0]
  · rw [if_neg h12]

/-- Claim C1 (amended): a successful `BlockChainMut::try_add` migrates at
most one block per call — the stable vector either stays unchanged or
grows by exactly one block appended at its end — and afterwards the
unstable head-to-tip chain holds at most `ENOUGH_CONFIRMATION + 1`
blocks (not at most `ENOUGH_CONFIRMATION`, as the spec's drain-loop
wording would give). -/
theorem try_add_migrates_at_most_one (c c' : BlockChainMut) (b : Blk)
    (hR : Reachable c) (hadd : c.try_add b = some c') :
    (∀ l, pathBlocks c'.tree.root c'.tree.last = some l →
       l.length ≤ ENOUGH_CONFIRMATION + 1) ∧
    (c'.stable_chain = c.stable_chain ∨ ∃ s, c'.stable_chain = c.stable_chain ++ [s]) := by
  have hInv := reachable_inv c' (Reachable.step c b c' hR hadd)
  constructor
  · intro l hl
    have h1 := hInv.2 _ hInv.1
    have h2 := pathBlocks_length _ _ _ hl
    omega
  · simp only [BlockChainMut.try_add] at hadd
    split at hadd
    · cases hadd
    next t' stabled heq =>
      split at hadd
      · cases hadd
        left
        rfl
      · cases hadd
        right
        exact ⟨_, rfl⟩

/-- Claim C9: after every successful `try_add` on the chain store, the
tree's `last` pointer denotes a node that is present in the tree and
reachable from the head via child edges — it never ends up in a subtree
dropped by stabilization. -/
theorem last_pointer_valid_after_try_add (c c' : BlockChainMut) (b : Blk)
    (hR : Reachable c) (hadd : c.try_add b = some c') :
    (nodeAt c'.tree.root c'.tree.last).isSome = true :=
  (reachable_inv c' (Reachable.step c b c' hR hadd)).1

/-- Claim C10: every chain store reachable from `new`/`with_start` by
`try_add` calls holds at least one block, so `latest_block` always
returns a block (the `unwrap` in the source never panics). -/
theorem latest_block_never_fails (c : BlockChainMut) (hR : Reachable c) :
    (c.latest_block).isSome = true := by
  obtain ⟨hlast, _⟩ := reachable_inv c hR
  obtain ⟨l, hl, hne⟩ := pathBlocks_of_valid c.tree.last c.tree.root hlast
  simp only [BlockChainMut.latest_block, BlockChainMut.iter, hl]
  rw [Option.isSome_iff_ne_none, ne_eq, List.getLast?_eq_none_iff]
  simp [hne]

end Blockchainmut

namespace Blockchain

theorem append_nodes_aux_last (act : List (List Nat)) :
    ∀ (fuel : Nat) (p : List Nat) (act' : List (List Nat)),
      append_nodes_aux act fuel p = some act' → act'.getLast? = some p := by
  intro fuel
  induction fuel with
  | zero =>
    intro p act' h
    cases h
  | succ fuel ih =>
    intro p act' h
    simp only [append_nodes_aux] at h
    split at h
    · cases h
    · split at h
      · cases h
        exact List.getLast?_concat _
      · split at h
        · cases h
        · cases h
          exact List.getLast?_concat _

theorem append_nodes_last (act act' : List (List Nat)) (p : List Nat)
    (h : append_nodes act p = some act') : act'.getLast? = some p :=
  append_nodes_aux_last act _ p act' h

/-- Claim C2: when the newly created node's height strictly exceeds the
active tail's height, `try_add_inner` reorganizes the active chain so
that the new node is its tip; when the new height is equal or smaller
(equal-height branches included) the active chain is left untouched and
every existing node keeps its block. -/
theorem try_add_reorg_and_tiebreak (c : BlockChain) (h : Blk) (p tp : List Nat)
    (pn tn : Rose BData) (c' : BlockChain)
    (hfind : find_node c h.prev = some p)
    (hpn : nodeAt c.root p = some pn)
    (htp : c.active_nodes.getLast? = some tp)
    (htn : nodeAt c.root tp = some tn)
    (hadd : try_add_inner c h = some c') :
    (tn.data.height < pn.data.height + 1 →
       c'.active_nodes.getLast? = some (p ++ [childCount c.root p]) ∧
       (nodeAt c'.root (p ++ [childCount c.root p])).map Rose.data
         = some { header := h, height := pn.data.height + 1 }) ∧
    (¬ tn.data.height < pn.data.height + 1 →
       c'.active_nodes = c.active_nodes ∧
       ∀ q x, nodeAt c.root q = some x →
         (nodeAt c'.root q).map Rose.data = some x.data) := by
  simp only [try_add_inner, hfind, hpn] at hadd
  cases happ : appendAt c.root p { header := h, height := pn.data.height + 1 } with
  | none =>
    rw [happ] at hadd
    cases hadd
  | some root1 =>
    simp only [happ, htp] at hadd
    obtain ⟨tn', htn', htd⟩ := appendAt_preserves _ _ _ _ happ tp tn htn
    simp only [htn', htd] at hadd
    have hpres : ∀ q x, nodeAt c.root q = some x →
        (nodeAt root1 q).map Rose.data = some x.data := by
      intro q x hx
      obtain ⟨x', hx', hxd⟩ := appendAt_preserves _ _ _ _ happ q x hx
      rw [hx', Option.map_some', hxd]
    refine ⟨fun hlt => ?_, fun hnlt => ?_⟩
    · rw [if_pos hlt] at hadd
      split at hadd
      · cases hadd
      next forkPath hflc =>
        split at hadd
        · cases hadd
        next forkNode hfn =>
          split at hadd
          · cases hadd
          next firstPath hfp =>
            split at hadd
            · cases hadd
            next firstNode hfirst =>
              split at hadd
              · cases hadd
              next act' happn =>
                cases hadd
                constructor
                · exact append_nodes_last _ _ _ happn
                · rw [appendAt_new _ _ _ _ happ, Option.map_some']
                  rfl
    · rw [if_neg hnlt] at hadd
      cases hadd
      exact ⟨rfl, hpres⟩

/-- Claim C8: on a non-empty active chain with monotone heights,
`locator_hashes` yields only hashes of active-chain blocks, starts with
the tip's hash, yields heights in non-increasing order, and produces at
most 10 hashes. -/
theorem locator_hashes_spec (chain : List BData)
    (hne : chain ≠ [])
    (hmono : List.Chain' (fun a b => a.height ≤ b.height) chain) :
    (∀ hsh ∈ locator_hashes chain, ∃ bd ∈ chain, bd.header.hash = hsh) ∧
    (locator_hashes chain).head? = chain.getLast?.map (fun b => b.header.hash) ∧
    List.Chain' (fun a b => b ≤ a) (((chain.reverse).take 10).map (fun b => b.height)) ∧
    (locator_hashes chain).length ≤ 10 := by
  refine ⟨?_, ?_, ?_, ?_⟩
  · intro hsh hmem
    simp only [locator_hashes, List.mem_map] at hmem
    obtain ⟨bd, hbd, rfl⟩ := hmem
    refine ⟨bd, ?_, rfl⟩
    have := List.mem_of_mem_take hbd
    simpa using this
  · simp only [locator_hashes]
    rw [List.head?_map]
    congr 1
    rw [← List.head?_reverse]
    cases hrev : chain.reverse with
    | nil => exact absurd (by simpa using hrev) hne
    | cons a as => rfl
  · have h1 : List.Chain' (fun a b : BData => b.height ≤ a.height) chain.reverse := by
      rw [List.chain'_reverse]
      exact hmono
    have h2 := List.Chain'.take h1 10
    exact (List.chain'_map _).mpr h2
  · simp only [locator_hashes, List.length_map, List.length_take]
    omega

end Blockchain

namespace Socket

/-- Claim C6: decoding a received frame fails with
`UnexpectedNetworkMagic` when the magic field differs from the
configured network's magic, fails with `InvalidChecksum` when the
checksum does not match the payload's double-SHA256 prefix, fails with
`UnrecognizedNetworkCommand` on an unknown command string, and returns
the typed message otherwise (when the payload parses). -/
theorem decode_contract :
    (∀ (magic : Nat) (src : List Nat),
       bytes_to_u32_le (src.take 4) ≠ magic →
       decode_msg_header magic src
         = .error (.unexpectedNetworkMagic magic (bytes_to_u32_le (src.take 4)))) ∧
    (∀ (chk : List Nat → List Nat) (dec : String → List Nat → Bool)
       (src : List Nat) (hdr : RawNetworkMessageHeader),
       chk src ≠ hdr.checksum →
       decode_and_check_msg_payload chk dec src hdr
         = .error (.invalidChecksum (chk src) hdr.checksum)) ∧
    (∀ (chk : List Nat → List Nat) (dec : String → List Nat → Bool)
       (src : List Nat) (hdr : RawNetworkMessageHeader),
       chk src = hdr.checksum →
       command_as_string hdr.command_name ∉ known_commands →
       decode_and_check_msg_payload chk dec src hdr
         = .error (.unrecognizedNetworkCommand (command_as_string hdr.command_name))) ∧
    (∀ (chk : List Nat → List Nat) (dec : String → List Nat → Bool)
       (src : List Nat) (hdr : RawNetworkMessageHeader),
       chk src = hdr.checksum →
       command_as_string hdr.command_name ∈ known_commands →
       dec (command_as_string hdr.command_name) src = true →
       ∃ m, decode_and_check_msg_payload chk dec src hdr = .ok m) := by
  refine ⟨?_, ?_, ?_, ?_⟩
  · intro magic src hm
    simp [decode_msg_header, hm]
  · intro chk dec src hdr hc
    simp [decode_and_check_msg_payload, hc]
  · intro chk dec src hdr hc hmem
    simp only [known_commands, List.mem_cons, List.not_mem_nil, or_false, not_or] at hmem
    obtain ⟨n1, n2, n3, n4, n5, n6, n7, n8, n9, n10, n11, n12, n13, n14, n15, n16⟩ := hmem
    simp [decode_and_check_msg_payload, hc, n1, n2, n3, n4, n5, n6, n7, n8, n9, n10,
          n11, n12, n13, n14, n15, n16]
  · intro chk dec src hdr hc hmem hdec
    simp only [known_commands, List.mem_cons, List.not_mem_nil, or_false] at hmem
    rcases hmem with h|h|h|h|h|h|h|h|h|h|h|h|h|h|h|h
    · rw [h] at hdec
      refine ⟨NetworkMessage.version src, ?_⟩
      simp only [decode_and_check_msg_payload, h]
      rw [if_neg (by simp [hc])]
      repeat rw [if_neg (by decide)]
      simp [hdec]
    · rw [h] at hdec
      refine ⟨NetworkMessage.verack, ?_⟩
      simp only [decode_and_check_msg_payload, h]
      rw [if_neg (by simp [hc])]
      repeat rw [if_neg (by decide)]
      simp [hdec]
    · rw [h] at hdec
      refine ⟨NetworkMessage.addr src, ?_⟩
      simp only [decode_and_check_msg_payload, h]
      rw [if_neg (by simp [hc])]
      repeat rw [if_neg (by decide)]
      simp [hdec]
    · rw [h] at hdec
      refine ⟨NetworkMessage.inv src, ?_⟩
      simp only [decode_and_check_msg_payload, h]
      rw [if_neg (by simp [hc])]
      repeat rw [if_neg (by decide)]
      simp [hdec]
    · rw [h] at hdec
      refine ⟨NetworkMessage.getdata src, ?_⟩
      simp only [decode_and_check_msg_payload, h]
      rw [if_neg (by simp [hc])]
      repeat rw [if_neg (by decide)]
      simp [hdec]
    · rw [h] at hdec
      refine ⟨NetworkMessage.notfound src, ?_⟩
      simp only [decode_and_check_msg_payload, h]
      rw [if_neg (by simp [hc])]
      repeat rw [if_neg (by decide)]
      simp [hdec]
    · rw [h] at hdec
      refine ⟨NetworkMessage.getblocks src, ?_⟩
      simp only [decode_and_check_msg_payload, h]
      rw [if_neg (by simp [hc])]
      repeat rw [if_neg (by decide)]
      simp [hdec]
    · rw [h] at hdec
      refine ⟨NetworkMessage.getheaders src, ?_⟩
      simp only [decode_and_check_msg_payload, h]
      rw [if_neg (by simp [hc])]
      repeat rw [if_neg (by decide)]
      simp [hdec]
    · rw [h] at hdec
      refine ⟨NetworkMessage.mempool, ?_⟩
      simp only [decode_and_check_msg_payload, h]
      rw [if_neg (by simp [hc])]
      repeat rw [if_neg (by decide)]
      simp [hdec]
    · rw [h] at hdec
      refine ⟨NetworkMessage.block src, ?_⟩
      simp only [decode_and_check_msg_payload, h]
      rw [if_neg (by simp [hc])]
      repeat rw [if_neg (by decide)]
      simp [hdec]
    · rw [h] at hdec
      refine ⟨NetworkMessage.headers src, ?_⟩
      simp only [decode_and_check_msg_payload, h]
      rw [if_neg (by simp [hc])]
      repeat rw [if_neg (by decide)]
      simp [hdec]
    · rw [h] at hdec
      refine ⟨NetworkMessage.getaddr, ?_⟩
      simp only [decode_and_check_msg_payload, h]
      rw [if_neg (by simp [hc])]
      repeat rw [if_neg (by decide)]
      simp [hdec]
    · rw [h] at hdec
      refine ⟨NetworkMessage.ping src, ?_⟩
      simp only [decode_and_check_msg_payload, h]
      rw [if_neg (by simp [hc])]
      repeat rw [if_neg (by decide)]
      simp [hdec]
    · rw [h] at hdec
      refine ⟨NetworkMessage.pong src, ?_⟩
      simp only [decode_and_check_msg_payload, h]
      rw [if_neg (by simp [hc])]
      repeat rw [if_neg (by decide)]
      simp [hdec]
    · rw [h] at hdec
      refine ⟨NetworkMessage.tx src, ?_⟩
      simp only [decode_and_check_msg_payload, h]
      rw [if_neg (by simp [hc])]
      repeat rw [if_neg (by decide)]
      simp [hdec]
    · rw [h] at hdec
      refine ⟨NetworkMessage.alert src, ?_⟩
      simp only [decode_and_check_msg_payload, h]
      rw [if_neg (by simp [hc])]
      repeat rw [if_neg (by decide)]
      simp [hdec]

end Socket

/-! Claim theorems: counterexamples, bug evaluations and witnesses. -/

/-- Shared concrete execution for witnesses: one `try_add` on a fresh
store appends the block, moves the tip and stabilizes nothing. -/
theorem try_add_one_eval :
    (Blockchainmut.BlockChainMut.with_start (chainBlk 0)).try_add (chainBlk 1)
      = some { stable_chain := []
             , tree := { root := .node (chainBlk 0) [.node (chainBlk 1) []]
                       , last := [0], len := 2 } } := by
  simp [Blockchainmut.BlockChainMut.try_add, Blockchainmut.BlockTree.try_add,
        Blockchainmut.BlockChainMut.with_start, Blockchainmut.BlockTree.with_start,
        Blockchainmut.ENOUGH_CONFIRMATION, findPath, findPathAux, appendAt, childCount,
        nodeAt, Rose.data, Rose.children, chainBlk]

/-- Claim C1 counterexample: from `with_start` with `ENOUGH_CONFIRMATION
= 12`, twelve successful `try_add` calls leave 13 blocks in the unstable
region (tree length 13, head-to-tip chain of 13 blocks, empty stable
vector), so the unstable region exceeds K after a successful `try_add`. -/
theorem blockchainmut_unstable_exceeds_confirmation_depth :
    ((Blockchainmut.add_all (Blockchainmut.BlockChainMut.with_start (chainBlk 0))
        [chainBlk 1, chainBlk 2, chainBlk 3, chainBlk 4, chainBlk 5, chainBlk 6,
         chainBlk 7, chainBlk 8, chainBlk 9, chainBlk 10, chainBlk 11, chainBlk 12]).map
        (fun c => (c.tree.len, c.tree.last.length + 1, c.stable_chain.length))
      = some (13, 13, 0)) ∧
    ¬ (13 ≤ Blockchainmut.ENOUGH_CONFIRMATION) := by
  constructor
  · simp [Blockchainmut.add_all, Blockchainmut.BlockChainMut.try_add,
          Blockchainmut.BlockTree.try_add, Blockchainmut.BlockChainMut.with_start,
          Blockchainmut.BlockTree.with_start, Blockchainmut.ENOUGH_CONFIRMATION,
          findPath, findPathAux, appendAt, childCount, nodeAt, Rose.data, Rose.children, chainBlk]
  · decide

/-- Claim C1 witness. -/
theorem try_add_migrates_at_most_one_witness :
    ∃ c', (Blockchainmut.BlockChainMut.with_start (chainBlk 0)).try_add (chainBlk 1)
        = some c' ∧
      (∀ l, pathBlocks c'.tree.root c'.tree.last = some l →
         l.length ≤ Blockchainmut.ENOUGH_CONFIRMATION + 1) ∧
      (c'.stable_chain = (Blockchainmut.BlockChainMut.with_start (chainBlk 0)).stable_chain ∨
       ∃ s, c'.stable_chain
         = (Blockchainmut.BlockChainMut.with_start (chainBlk 0)).stable_chain ++ [s]) :=
  ⟨_, try_add_one_eval,
    Blockchainmut.try_add_migrates_at_most_one _ _ _
      (Blockchainmut.Reachable.start _) try_add_one_eval⟩

/-- Claim C9 witness. -/
theorem last_pointer_valid_after_try_add_witness :
    ∃ c', (Blockchainmut.BlockChainMut.with_start (chainBlk 0)).try_add (chainBlk 1)
        = some c' ∧
      (nodeAt c'.tree.root c'.tree.last).isSome = true :=
  ⟨_, try_add_one_eval,
    Blockchainmut.last_pointer_valid_after_try_add _ _ _
      (Blockchainmut.Reachable.start _) try_add_one_eval⟩

/-- Claim C10 witness. -/
theorem latest_block_never_fails_witness :
    ((Blockchainmut.BlockChainMut.with_start (chainBlk 0)).latest_block).isSome = true :=
  Blockchainmut.latest_block_never_fails _ (Blockchainmut.Reachable.start _)

/-- Claim C3 counterexample: the confirmation depth constant is not 100. -/
theorem enough_confirmation_is_not_100 : Blockchainmut.ENOUGH_CONFIRMATION ≠ 100 := by
  decide

/-- Claim C3 (amended): the confirmation depth is the fixed compile-time
constant 12 in blockchainmut.rs/blocktree.rs (6 in the top-level
blockchain.rs variant); no configuration option exists. -/
theorem enough_confirmation_constants :
    Blockchainmut.ENOUGH_CONFIRMATION = 12 ∧
    Blockchainmut.TOP_LEVEL_ENOUGH_CONFIRMATION = 6 := by
  decide

/-- Claim C4 counterexample: adding the same block twice succeeds both
times and the second call grows the tree from 2 to 3 nodes — the node
set and length change, so the repeated `try_add` is not a no-op. -/
theorem try_add_duplicate_is_not_noop :
    ((Blockchainmut.add_all (Blockchainmut.BlockChainMut.with_start (chainBlk 0))
        [chainBlk 1]).map (fun c => c.tree.len) = some 2) ∧
    ((Blockchainmut.add_all (Blockchainmut.BlockChainMut.with_start (chainBlk 0))
        [chainBlk 1, chainBlk 1]).map (fun c => c.tree.len) = some 3) := by
  constructor <;>
    simp [Blockchainmut.add_all, Blockchainmut.BlockChainMut.try_add,
          Blockchainmut.BlockTree.try_add, Blockchainmut.BlockChainMut.with_start,
          Blockchainmut.BlockTree.with_start, Blockchainmut.ENOUGH_CONFIRMATION,
          findPath, findPathAux, appendAt, childCount, nodeAt, Rose.data, Rose.children, chainBlk]

/-- Claim C4 witness. -/
theorem try_add_duplicate_appends_node_witness :
    ∃ t', Blockchainmut.BlockTree.try_add
        { root := .node (chainBlk 0) [.node (chainBlk 1) []], last := [0], len := 2 }
        (chainBlk 1)
      = some (t', none) ∧ t'.len = 3 ∧ t'.last = [0] := by
  obtain ⟨t', h1, h2, h3⟩ := Blockchainmut.try_add_duplicate_appends_node
      { root := .node (chainBlk 0) [.node (chainBlk 1) []], last := [0], len := 2 }
      (chainBlk 1) []
      (by simp [findPath, findPathAux, Rose.data, Rose.children, chainBlk])
      (by decide)
      (by decide)
  exact ⟨t', h1, by rw [h2], h3⟩

/-- Claim C2 witness. -/
theorem try_add_reorg_and_tiebreak_witness :
    ∃ c', Blockchain.try_add_inner
        (Blockchain.BlockChain.with_start { header := chainBlk 0, height := 0 }) (chainBlk 1)
      = some c' ∧
      c'.active_nodes.getLast? = some [0] ∧
      (nodeAt c'.root [0]).map Rose.data = some { header := chainBlk 1, height := 1 } := by
  have hfind : Blockchain.find_node
      (Blockchain.BlockChain.with_start { header := chainBlk 0, height := 0 })
      (chainBlk 1).prev = some [] := by
    simp [Blockchain.find_node, Blockchain.BlockChain.with_start, dfsFind, dfsFindAux,
          nodeAt, Rose.data, Rose.children, chainBlk]
  have hadd : Blockchain.try_add_inner
      (Blockchain.BlockChain.with_start { header := chainBlk 0, height := 0 }) (chainBlk 1)
      = some { root := .node { header := chainBlk 0, height := 0 }
                        [.node { header := chainBlk 1, height := 1 } []]
             , active_nodes := [[], [0]] } := by
    simp [Blockchain.try_add_inner, Blockchain.find_node, Blockchain.BlockChain.with_start,
          Blockchain.get_block, Blockchain.contains, Blockchain.find_last_common,
          Blockchain.find_last_common_aux, Blockchain.append_nodes,
          Blockchain.append_nodes_aux, dfsFind, dfsFindAux, nodeAt, appendAt, childCount,
          Rose.data, Rose.children, chainBlk]
  have hs := Blockchain.try_add_reorg_and_tiebreak _ (chainBlk 1) [] []
      (.node { header := chainBlk 0, height := 0 } [])
      (.node { header := chainBlk 0, height := 0 } [])
      _ hfind rfl rfl rfl hadd
  have h1 := (hs.1 (by decide)).1
  have hcc : childCount (Blockchain.BlockChain.with_start
      { header := chainBlk 0, height := 0 }).root [] = 0 := by
    simp [childCount, nodeAt, Rose.children, Blockchain.BlockChain.with_start]
  rw [hcc] at h1
  refine ⟨_, hadd, h1, ?_⟩
  simp [nodeAt, Rose.data, chainBlk]

/-- Claim C8 witness. -/
theorem locator_hashes_spec_witness :
    (∀ hsh ∈ Blockchain.locator_hashes
        [{ header := chainBlk 0, height := 0 }, { header := chainBlk 1, height := 1 }],
       ∃ bd ∈ [({ header := chainBlk 0, height := 0 } : Blockchain.BData),
               { header := chainBlk 1, height := 1 }], bd.header.hash = hsh) ∧
    (Blockchain.locator_hashes
        [{ header := chainBlk 0, height := 0 }, { header := chainBlk 1, height := 1 }]).head?
      = ([({ header := chainBlk 0, height := 0 } : Blockchain.BData),
          { header := chainBlk 1, height := 1 }]).getLast?.map (fun b => b.header.hash) ∧
    List.Chain' (fun a b => b ≤ a)
      ((([({ header := chainBlk 0, height := 0 } : Blockchain.BData),
          { header := chainBlk 1, height := 1 }]).reverse.take 10).map (fun b => b.height)) ∧
    (Blockchain.locator_hashes
        [{ header := chainBlk 0, height := 0 }, { header := chainBlk 1, height := 1 }]).length
      ≤ 10 :=
  Blockchain.locator_hashes_spec _ (by simp)
    (by simp [List.chain'_cons, List.chain'_singleton, Rose.data, Rose.children, chainBlk])

/-- Claim C5 (bug evaluation): a second `GetAddrsRequest` while one is
pending is not dropped — the handler still sends `getaddr` and replaces
the pending reply address — while the `GetHeaders` and `GetBlocks`
handlers do drop the second request without sending anything. -/
theorem getaddrs_second_request_overwrites_slot :
    Connection.handle_get_addrs_request
        { waiting_blocks := none, waiting_headers := none,
          subscribe_invs := none, waiting_addrs := some 1 } 2
      = ({ waiting_blocks := none, waiting_headers := none,
           subscribe_invs := none, waiting_addrs := some 2 },
         [Connection.OutMsg.getaddr]) ∧
    Connection.handle_get_headers_request
        { waiting_blocks := none, waiting_headers := some 1,
          subscribe_invs := none, waiting_addrs := none } [5] 2
      = ({ waiting_blocks := none, waiting_headers := some 1,
           subscribe_invs := none, waiting_addrs := none }, []) ∧
    Connection.handle_get_blocks_request
        { waiting_blocks := some (1, [7]), waiting_headers := none,
          subscribe_invs := none, waiting_addrs := none } [8] 2
      = ({ waiting_blocks := some (1, [7]), waiting_headers := none,
           subscribe_invs := none, waiting_addrs := none }, []) :=
  ⟨rfl, rfl, rfl⟩

/-- Claim C7 (bug evaluation): on a 3-header reply (fewer than 2000) the
`SyncBlockChain` actor re-issues `getheaders` instead of signaling
completion, while the ibd.rs and sync_block_header.rs drivers break
their loops exactly when the reply is not a full 2000-header batch —
`sync_blockchain.rs` inverts the loop condition. -/
theorem headers_loop_condition_inverted :
    Sync.handle_headers_response
        (Blockchain.BlockChain.with_start { header := chainBlk 0, height := 0 })
        [chainBlk 1, chainBlk 2, chainBlk 3]
      = Sync.SyncStepResult.rerequest
          { root := .node { header := chainBlk 0, height := 0 }
                      [.node { header := chainBlk 1, height := 1 }
                        [.node { header := chainBlk 2, height := 2 }
                          [.node { header := chainBlk 3, height := 3 } []]]]
          , active_nodes := [[], [0], [0, 0], [0, 0, 0]] } ∧
    Sync.download_headers_decision 3 = Sync.LoopStep.brk ∧
    Sync.download_headers_decision 2000 = Sync.LoopStep.cont ∧
    Sync.sync_block_header_is_complete 3 = true ∧
    Sync.sync_block_header_is_complete 2000 = false := by
  refine ⟨?_, by decide, by decide, by decide, by decide⟩
  simp [Sync.handle_headers_response, Sync.apply_headers, Sync.NUM_MAX_HEADERS_IN_MSG,
        Blockchain.try_add_inner, Blockchain.find_node, Blockchain.BlockChain.with_start,
        Blockchain.get_block, Blockchain.contains, Blockchain.find_last_common,
        Blockchain.find_last_common_aux, Blockchain.append_nodes, Blockchain.append_nodes_aux,
        dfsFind, dfsFindAux, nodeAt, appendAt, childCount, Rose.data, Rose.children, chainBlk]

/-- Claim C6 witness. -/
theorem decode_contract_witness :
    Socket.decode_msg_header 3652501241 (List.replicate 24 0)
      = .error (.unexpectedNetworkMagic 3652501241
          (Socket.bytes_to_u32_le ((List.replicate 24 0).take 4))) ∧
    Socket.decode_and_check_msg_payload (fun _ => [9]) (fun _ _ => true) [7]
        { command_name := [104, 101, 97, 100, 101, 114, 115, 0, 0, 0, 0, 0]
        , payload_size := 1, checksum := [1] }
      = .error (.invalidChecksum [9] [1]) ∧
    Socket.decode_and_check_msg_payload (fun _ => [1]) (fun _ _ => true) [7]
        { command_name := [98, 111, 103, 117, 115, 0, 0, 0, 0, 0, 0, 0]
        , payload_size := 1, checksum := [1] }
      = .error (.unrecognizedNetworkCommand
          (Socket.command_as_string [98, 111, 103, 117, 115, 0, 0, 0, 0, 0, 0, 0])) ∧
    ∃ m, Socket.decode_and_check_msg_payload (fun _ => [1]) (fun _ _ => true) [7]
        { command_name := [104, 101, 97, 100, 101, 114, 115, 0, 0, 0, 0, 0]
        , payload_size := 1, checksum := [1] } = .ok m :=
  ⟨Socket.decode_contract.1 3652501241 (List.replicate 24 0) (by decide),
   Socket.decode_contract.2.1 _ _ _ _ (by decide),
   Socket.decode_contract.2.2.1 _ _ _ _ rfl (by decide),
   Socket.decode_contract.2.2.2 _ _ _ _ rfl (by decide) rfl⟩
